import Mathlib

set_option autoImplicit false

/-!
Shallow embedding of the pixelprompt repository (src/pixelprompt/core.py and
src/pixelprompt/prompts.py). Python strings are modelled as `List Char`;
Python integers as `Int` (or `Nat` where the source value is a length or a
pixel count that is provably non-negative); Python floor division `//` as
`Int.fdiv` / `Nat.div`. Fallible operations return `Option` or `Except`.
-/

namespace PixelPrompt

/-! ### Python string primitives -/

/-- Whitespace characters recognised by Python `str.strip` and the regex
class `\s` for the ASCII inputs handled here. -/
def isPySpace (c : Char) : Bool :=
  c = ' ' || c = '\t' || c = '\n' || c = '\r' || c = '\x0b' || c = '\x0c'

/-- Python `str.lstrip()`. -/
def pyLStrip (s : List Char) : List Char := s.dropWhile isPySpace

/-- Python `str.rstrip()`. -/
def pyRStrip (s : List Char) : List Char := (s.reverse.dropWhile isPySpace).reverse

/-- Python `str.strip()`. -/
def pyStrip (s : List Char) : List Char := pyLStrip (pyRStrip s)

/-- Python `str.split(sep)` for a single-character separator: always returns
at least one piece, and empty pieces are kept. -/
def pySplit (sep : Char) : List Char → List (List Char)
  | [] => [[]]
  | c :: rest =>
    let r := pySplit sep rest
    if c = sep then [] :: r
    else
      match r with
      | [] => [[c]]
      | l :: ls => (c :: l) :: ls

/-- Inverse of `pySplit '\n'`: interleave the pieces with newline characters. -/
def joinNewline : List (List Char) → List Char
  | [] => []
  | [l] => l
  | l :: ls => l ++ '\n' :: joinNewline ls

/-- Does `pat` occur at the start of `s`? (Python `str.startswith`.) -/
def leadsWith : List Char → List Char → Bool
  | [], _ => true
  | _ :: _, [] => false
  | p :: ps, c :: cs => p = c && leadsWith ps cs

/-- Python substring containment `pat in s`. -/
def containsSub (pat : List Char) : List Char → Bool
  | [] => leadsWith pat []
  | c :: rest => leadsWith pat (c :: rest) || containsSub pat rest

/-- Python `s.replace(pat, "")` for the two-character patterns used by
`minify_text` (`**` and `__`): left-to-right, non-overlapping removal of
every occurrence of the pattern `[a, b]`. -/
def removeSub2 (a b : Char) : List Char → List Char
  | [] => []
  | [c] => [c]
  | c :: c2 :: rest =>
    if c = a ∧ c2 = b then removeSub2 a b rest
    else c :: removeSub2 a b (c2 :: rest)

/-- Regex substitution `re.sub(r"  +", " ", s)`: each run of two or more
space characters collapses to a single space (every space directly followed
by another space is dropped, keeping the last space of the run). -/
def collapseSpaces : List Char → List Char
  | [] => []
  | [c] => [c]
  | c :: c2 :: rest =>
    if c = ' ' ∧ c2 = ' ' then collapseSpaces (c2 :: rest)
    else c :: collapseSpaces (c2 :: rest)

/-- Is the first character of `s` equal to `a`? (Python `s[0:1] == a`.) -/
def headIsChar (a : Char) : List Char → Bool
  | [] => false
  | c :: _ => c = a

/-! ### core.py constants and token model -/

def TOKENS_PER_PIXEL_DIVISOR : Nat := 750

def MAX_VISION_DIMENSION : Nat := 1568

/-- Embedding of `estimate_image_tokens` (core.py lines 160-180) in exact
integer arithmetic: dimensions whose longest side exceeds 1568 are scaled
proportionally, each scaled dimension truncated to a whole pixel count, and
the cost is `max 1 (scaled_w * scaled_h / 750)` with truncating division.
The source computes the scale factor `1568 / max(width, height)` in binary64
floating point before truncating; this model performs the documented exact
scaling (longest side capped at 1568), which the float computation can miss
by one pixel on some inputs. -/
def estimate_image_tokens (width height : Nat) : Nat :=
  let m := max width height
  let scaled_w := if MAX_VISION_DIMENSION < m then width * MAX_VISION_DIMENSION / m else width
  let scaled_h := if MAX_VISION_DIMENSION < m then height * MAX_VISION_DIMENSION / m else height
  max 1 (scaled_w * scaled_h / TOKENS_PER_PIXEL_DIVISOR)

/-! ### RenderConfig and validation -/

/-- Embedding of the `RenderConfig` dataclass; field defaults mirror the
source. Color tuples are carried but never validated or used by the layout
logic. -/
structure RenderConfig where
  font_size : Int := 9
  font_family : String := "monospace"
  max_width : Int := 1568
  max_height : Int := 1568
  dynamic_width : Bool := true
  dynamic_height : Bool := true
  background_color : Int × Int × Int := (255, 255, 255)
  text_color : Int × Int × Int := (0, 0, 0)
  padding : Int := 5
  line_spacing : Int := 1
  minify : Bool := true
  content_type : Option String := none
deriving DecidableEq

def defaultConfig : RenderConfig := {}

/-- A small canvas configuration used to probe the dynamic-sizing cost
comparison at its lower clamps. -/
def cfgSmallCanvas : RenderConfig := { max_width := 50, max_height := 25 }

/-- The `CONTENT_PRESETS` table: name, font_size, minify. -/
def CONTENT_PRESETS : List (String × Int × Bool) :=
  [("prose", 9, true), ("json", 9, true), ("code", 7, false), ("config", 8, false)]

inductive PresetError where
  | unknownContentType
deriving DecidableEq

/-- Embedding of `RenderConfig.for_content`: unknown names raise, known names
produce a config fixing font_size and minify. -/
def for_content (content_type : String) : Except PresetError RenderConfig :=
  match CONTENT_PRESETS.find? (fun p => p.1 == content_type) with
  | none => Except.error PresetError.unknownContentType
  | some p =>
      Except.ok { font_size := p.2.1, minify := p.2.2, content_type := some content_type }

inductive ConfigError where
  | fontSizeOutOfRange
  | invalidFontFamily
  | dimensionsTooSmall
  | negativePadding
  | negativeLineSpacing
deriving DecidableEq

/-- Embedding of `PixelPrompt._validate_config` (core.py lines 286-297):
the checks in source order. Note that `content_type` is never inspected. -/
def validate_config (c : RenderConfig) : Option ConfigError :=
  if ¬(6 ≤ c.font_size ∧ c.font_size ≤ 20) then some ConfigError.fontSizeOutOfRange
  else if ¬(c.font_family = "monospace" ∨ c.font_family = "serif" ∨ c.font_family = "sans-serif") then
    some ConfigError.invalidFontFamily
  else if c.max_width < 50 ∨ c.max_height < 20 then some ConfigError.dimensionsTooSmall
  else if c.padding < 0 then some ConfigError.negativePadding
  else if c.line_spacing < 0 then some ConfigError.negativeLineSpacing
  else none

/-! ### Engine construction (PixelPrompt.__init__) -/

/-- The state cached by `PixelPrompt.__init__`: the configuration, the
measured glyph metrics (supplied by the external glyph-measurement
collaborator), and the derived line height and wrapping limits. -/
structure Engine where
  config : RenderConfig
  char_width : Int
  char_height : Int
  line_height : Int
  max_chars_per_line : Int
  max_lines_per_image : Int
deriving DecidableEq

/-- The metric computations of `PixelPrompt.__init__` (core.py lines 277-284),
taking the measured character dimensions as inputs. Python `//` is floor
division, hence `Int.fdiv`. -/
def mkEngine (c : RenderConfig) (char_width char_height : Int) : Engine :=
  let lh := char_height + c.line_spacing
  { config := c
    char_width := char_width
    char_height := char_height
    line_height := lh
    max_chars_per_line := max 1 (Int.fdiv (c.max_width - 2 * c.padding) (max 1 char_width))
    max_lines_per_image := max 1 (Int.fdiv (c.max_height - 2 * c.padding) (max 1 lh)) }

/-- Embedding of `PixelPrompt.__init__`: validation happens first and is the
only construction step that can fail (font resolution falls back to a
built-in default and never raises; `_measure_char` is the external
measurement collaborator). -/
def PixelPrompt_init (c : RenderConfig) (char_width char_height : Int) :
    Except ConfigError Engine :=
  match validate_config c with
  | some e => Except.error e
  | none => Except.ok (mkEngine c char_width char_height)

/-! ### minify_text (core.py lines 369-422) -/

def headIsSpace : List Char → Bool
  | [] => false
  | c :: _ => isPySpace c

/-- Regex substitution `re.sub(r"^#{1,6}\s+", "", s)`: strip one to six
leading hash marks followed by at least one whitespace character, consuming
the whole whitespace run (greedy). Seven or more hash marks never match. -/
def stripHeader (s : List Char) : List Char :=
  let hashes := (s.takeWhile (fun c => c = '#')).length
  if 1 ≤ hashes ∧ hashes ≤ 6 ∧ headIsSpace (s.drop hashes) = true then
    (s.drop hashes).dropWhile isPySpace
  else s

/-- Per-line cleaning step of `minify_text`: rstrip, strip header marker,
remove bold and italic delimiters (`**` first, then `__`, as the chained
`str.replace` calls do), then collapse interior space runs while preserving
the leading indent width as spaces. -/
def cleanLine (line : List Char) : List Char :=
  let s1 := pyRStrip line
  let s2 := stripHeader s1
  let s3 := removeSub2 '_' '_' (removeSub2 '*' '*' s2)
  let leading := (s3.takeWhile isPySpace).length
  let content := collapseSpaces (s3.dropWhile isPySpace)
  List.replicate leading ' ' ++ content

/-- Regex `re.match(r"^\s*[-*]\s", line)`: optional leading whitespace, a
dash or asterisk, then one whitespace character. -/
def isListItem (line : List Char) : Bool :=
  match line.dropWhile isPySpace with
  | c :: c2 :: _ => (c = '-' || c = '*') && isPySpace c2
  | _ => false

/-- The separator chosen when rejoining cleaned lines: a newline before list
items and space-indented lines, a single joining space otherwise. -/
def joinSep (line : List Char) : List Char :=
  if isListItem line = true ∨ headIsChar ' ' line = true then '\n' :: line
  else ' ' :: line

/-- Embedding of `PixelPrompt.minify_text`. -/
def minify_text (text : List Char) : List Char :=
  let cleaned := ((pySplit '\n' text).filter (fun l => !(pyRStrip l).isEmpty)).map cleanLine
  match cleaned with
  | [] => []
  | first :: rest => first ++ (rest.map joinSep).flatten

/-! ### render validation phase (core.py lines 442-451) -/

inductive RenderError where
  | emptyText
  | emptyAfterMinify
deriving DecidableEq

/-- The validation phase of `PixelPrompt.render`: the empty-input check, then
(for non-json content) the empty-after-minification check. The json branch
applies `compact_json`, which never raises (it falls back to regex
compaction), so it contributes no error condition. -/
def render_validate (c : RenderConfig) (text : List Char) : Option RenderError :=
  if pyStrip text = [] then some RenderError.emptyText
  else if c.content_type = some "json" then none
  else if c.minify = true then
    if pyStrip (minify_text text) = [] then some RenderError.emptyAfterMinify else none
  else none

/-! ### word wrap (core.py lines 464-499) -/

/-- The inner `while len(word) > max_chars` loop of `_wrap_text`, with an
explicit iteration bound so the definition is structurally recursive: each
iteration emits one fixed-width chunk of `m` characters and drops it from
the word. The source loop does not terminate when the limit is zero; the
engine guarantees a limit of at least one, under which `word.length`
iterations always suffice. -/
def hardSplitAux : Nat → Nat → List Char → List (List Char) × List Char
  | 0, _, word => ([], word)
  | fuel + 1, m, word =>
    if m = 0 ∨ word.length ≤ m then ([], word)
    else
      let r := hardSplitAux fuel m (word.drop m)
      (word.take m :: r.1, r.2)

/-- Hard-split an over-long word into fixed-width chunks, returning the
chunks and the final remainder. -/
def hardSplit (m : Nat) (word : List Char) : List (List Char) × List Char :=
  hardSplitAux word.length m word

/-- One step of the word-packing loop of `_wrap_text`: try to extend the
current line with the next word; on overflow flush the current line and
hard-split the word if it alone exceeds the limit. -/
def wrapStep (m : Nat) (st : List (List Char) × List Char) (word : List Char) :
    List (List Char) × List Char :=
  let test := if st.2 ≠ [] then pyStrip (st.2 ++ ' ' :: word) else word
  if test.length ≤ m then (st.1, test)
  else
    let acc1 := if st.2 ≠ [] then st.1 ++ [st.2] else st.1
    let hs := hardSplit m word
    (acc1 ++ hs.1, hs.2)

/-- Wrapping of a single logical line (one paragraph of `_wrap_text`). -/
def wrapParagraph (m : Nat) (p : List Char) : List (List Char) :=
  if p = [] then [[]]
  else if p.length ≤ m then [p]
  else
    let st := (pySplit ' ' p).foldl (wrapStep m) ([], [])
    if st.2 ≠ [] then st.1 ++ [st.2] else st.1

/-- Embedding of `PixelPrompt._wrap_text`, parameterised by the cached
`max_chars_per_line`. -/
def wrap_text (m : Nat) (text : List Char) : List (List Char) :=
  ((pySplit '\n' text).map (wrapParagraph m)).flatten

/-! ### pagination (core.py lines 501-508) -/

/-- The `for i in range(0, len(lines), k)` slicing loop of `_paginate`, with
an explicit iteration bound so the definition is structurally recursive:
each iteration takes one slice of at most `k` lines. The source raises on a
zero step; the engine guarantees a step of at least one, under which
`lines.length` iterations always suffice. -/
def chunkPagesAux : Nat → Nat → List (List Char) → List (List (List Char))
  | 0, _, _ => []
  | fuel + 1, k, lines =>
    if k = 0 ∨ lines = [] then []
    else lines.take k :: chunkPagesAux fuel k (lines.drop k)

/-- The page slices of `_paginate`. -/
def chunkPages (k : Nat) (lines : List (List Char)) : List (List (List Char)) :=
  chunkPagesAux lines.length k lines

/-- Embedding of `PixelPrompt._paginate`: `pages if pages else [lines]`. -/
def paginate (k : Nat) (lines : List (List Char)) : List (List (List Char)) :=
  let pages := chunkPages k lines
  if pages = [] then [lines] else pages

/-! ### page rendering (core.py lines 510-547) -/

/-- Python `max((len(line) for line in lines), default=0)`. -/
def longestLineLen (lines : List (List Char)) : Nat :=
  lines.foldl (fun a l => max a l.length) 0

/-- The dimension computation of `PixelPrompt._render_page`: dynamic
dimensions are `min(max_dim, max(content_dim, floor))` with floors 50 and
20; fixed dimensions are the configured maxima. -/
def pageDims (e : Engine) (lines : List (List Char)) : Int × Int :=
  let img_width : Int :=
    if e.config.dynamic_width then
      min e.config.max_width
        (max ((longestLineLen lines : Int) * e.char_width + 2 * e.config.padding) 50)
    else e.config.max_width
  let img_height : Int :=
    if e.config.dynamic_height then
      min e.config.max_height
        (max ((lines.length : Int) * e.line_height + 2 * e.config.padding) 20)
    else e.config.max_height
  (img_width, img_height)

/-- The token cost attached to a rendered page: `estimate_image_tokens` on
the final rendered dimensions (core.py line 546). -/
def pageTokens (e : Engine) (lines : List (List Char)) : Nat :=
  estimate_image_tokens (pageDims e lines).1.toNat (pageDims e lines).2.toNat

/-- The page lists produced by `render` after wrapping and pagination. -/
def render_pages (e : Engine) (text : List Char) : List (List (List Char)) :=
  paginate e.max_lines_per_image.toNat (wrap_text e.max_chars_per_line.toNat text)

/-- Total token cost of all images produced by `render` for a text. -/
def render_tokens (e : Engine) (text : List Char) : Nat :=
  ((render_pages e text).map (pageTokens e)).sum

/-- Helper for stating dynamic-flag comparisons: the same configuration with
both dynamic-sizing flags forced to the given values. -/
def withDynamic (c : RenderConfig) (dw dh : Bool) : RenderConfig :=
  { c with dynamic_width := dw, dynamic_height := dh }

/-! ### prompts.py -/

def CONCISE_SUFFIX : List Char :=
  "Answer with ONLY the answer value. No explanation, no preamble.".data

def EXTRACT_SUFFIX : List Char :=
  "Extract and return ONLY the requested value. Nothing else.".data

def STRUCTURED_SUFFIX : List Char :=
  "Return ONLY the result in the requested format. No commentary.".data

/-- The `suffixes.get(style, CONCISE_SUFFIX)` lookup of `optimize_prompt`. -/
def suffixFor (style : String) : List Char :=
  if style = "concise" then CONCISE_SUFFIX
  else if style = "extract" then EXTRACT_SUFFIX
  else if style = "structured" then STRUCTURED_SUFFIX
  else CONCISE_SUFFIX

/-- Python `prompt.endswith((".", "?", "!", ":"))`. -/
def endsInTerminalPunct (p : List Char) : Bool :=
  match p.getLast? with
  | some c => c = '.' || c = '?' || c = '!' || c = ':'
  | none => false

/-- Embedding of `optimize_prompt` (prompts.py lines 28-69). -/
def optimize_prompt (prompt : List Char) (style : String) : List Char :=
  if style = "none" then prompt
  else
    let suffix := suffixFor style
    if containsSub suffix prompt = true then prompt
    else
      let p := pyRStrip prompt
      let p2 := if endsInTerminalPunct p = true then p else p ++ ['.']
      p2 ++ ' ' :: suffix

/-- The four terminal punctuation characters recognised by the source. -/
def terminalPunctuation : List Char := ['.', '?', '!', ':']

/-- Modelled from the spec wording of the amended claim: append the chosen
style suffix unless it already occurs as a substring of the prompt, first
stripping trailing whitespace and inserting a period when the stripped
prompt does not end in one of the four terminal punctuation characters
period, question mark, exclamation mark, colon. -/
def optimizePromptSpec (prompt : List Char) (style : String) : List Char :=
  if style = "none" then prompt
  else if containsSub (suffixFor style) prompt = true then prompt
  else
    let stripped := pyRStrip prompt
    if terminalPunctuation.any (fun c => stripped.getLast? == some c) = true then
      stripped ++ ' ' :: suffixFor style
    else
      stripped ++ '.' :: ' ' :: suffixFor style

/-! ### claim-shaped predicates for the minify fixpoint claim -/

/-- One line of already-minified text as the claim describes it: non-blank,
no trailing whitespace, no markdown heading marker, no bold or italic
delimiter, and only single interior spaces (after the leading indent). -/
def lineMinified (l : List Char) : Bool :=
  (!l.isEmpty) && (pyRStrip l == l) && (stripHeader l == l) &&
  (!containsSub ('*' :: '*' :: []) l) && (!containsSub ('_' :: '_' :: []) l) &&
  (!containsSub (' ' :: ' ' :: []) (pyLStrip l))

/-- The claim's description of already-minified text: every line is
minified and every line break occurs only before a list item or a
space-indented line. -/
def minifiedShape (x : List Char) : Bool :=
  (pySplit '\n' x).all lineMinified &&
  ((pySplit '\n' x).tail.all (fun l => isListItem l || headIsChar ' ' l))

/-- The additional condition the counterexample forces on the claim: the
leading whitespace of every line consists of spaces only (no tabs), as is
true of every output of `minify_text`. -/
def spaceIndented (x : List Char) : Bool :=
  (pySplit '\n' x).all (fun l => (l.takeWhile isPySpace).all (fun c => c == ' '))

/-- Spec-shaped clamp used by the page-renderer contract:
`clamp(v, lower_bound, upper_bound)`. -/
def clamp (v lo hi : Int) : Int := max lo (min hi v)


/-! ### Helper lemmas -/

theorem pySplit_ne_nil (sep : Char) (s : List Char) : pySplit sep s ≠ [] := by
  cases s with
  | nil => simp [pySplit]
  | cons c rest =>
    by_cases h : c = sep
    · simp [pySplit, h]
    · cases hr : pySplit sep rest with
      | nil => simp [pySplit, h, hr]
      | cons l ls => simp [pySplit, h, hr]

theorem joinNewline_pySplit (s : List Char) : joinNewline (pySplit '\n' s) = s := by
  induction s with
  | nil => rfl
  | cons c rest ih =>
    by_cases h : c = '\n'
    · subst h
      have h1 : pySplit '\n' ('\n' :: rest) = [] :: pySplit '\n' rest := by
        simp [pySplit]
      obtain ⟨r1, rs, hr⟩ : ∃ r1 rs, pySplit '\n' rest = r1 :: rs := by
        cases hh : pySplit '\n' rest with
        | nil => exact absurd hh (pySplit_ne_nil _ _)
        | cons a b => exact ⟨a, b, rfl⟩
      rw [h1, hr]
      rw [hr] at ih
      show '\n' :: joinNewline (r1 :: rs) = '\n' :: rest
      rw [ih]
    · cases hh : pySplit '\n' rest with
      | nil => exact absurd hh (pySplit_ne_nil _ _)
      | cons l ls =>
        have h1 : pySplit '\n' (c :: rest) = (c :: l) :: ls := by
          simp [pySplit, h, hh]
        rw [h1]
        rw [hh] at ih
        cases ls with
        | nil =>
          show c :: l = c :: rest
          have : l = rest := ih
          rw [this]
        | cons l2 ls2 =>
          show (c :: l) ++ '\n' :: joinNewline (l2 :: ls2) = c :: rest
          have : l ++ '\n' :: joinNewline (l2 :: ls2) = rest := ih
          simp [List.cons_append, this]

theorem map_id_of_mem {α : Type} {l : List α} {f : α → α} (h : ∀ a ∈ l, f a = a) :
    l.map f = l := by
  induction l with
  | nil => rfl
  | cons a t ih =>
    simp only [List.map_cons, h a (List.mem_cons_self a t),
      ih (fun b hb => h b (List.mem_cons_of_mem _ hb))]

theorem removeSub2_fixpoint (a b : Char) : ∀ s, containsSub (a :: b :: []) s = false →
    removeSub2 a b s = s := by
  intro s
  induction s with
  | nil => intro _; rfl
  | cons c rest ih =>
    intro h
    have h' : leadsWith (a :: b :: []) (c :: rest) = false ∧
        containsSub (a :: b :: []) rest = false := by
      simpa [containsSub, Bool.or_eq_false_iff] using h
    cases rest with
    | nil => rfl
    | cons c2 rest2 =>
      have hcond : ¬(c = a ∧ c2 = b) := by
        rintro ⟨rfl, rfl⟩
        simp [leadsWith] at h'
      show (if c = a ∧ c2 = b then removeSub2 a b rest2
            else c :: removeSub2 a b (c2 :: rest2)) = c :: c2 :: rest2
      rw [if_neg hcond, ih h'.2]

theorem collapseSpaces_fixpoint : ∀ s : List Char,
    containsSub (' ' :: ' ' :: []) s = false → collapseSpaces s = s := by
  intro s
  induction s with
  | nil => intro _; rfl
  | cons c rest ih =>
    intro h
    cases rest with
    | nil => rfl
    | cons c2 rest2 =>
      have h' : leadsWith (' ' :: ' ' :: []) (c :: c2 :: rest2) = false ∧
          containsSub (' ' :: ' ' :: []) (c2 :: rest2) = false := by
        simpa [containsSub, Bool.or_eq_false_iff] using h
      have hcond : ¬(c = ' ' ∧ c2 = ' ') := by
        rintro ⟨rfl, rfl⟩
        simp [leadsWith] at h'
      show (if c = ' ' ∧ c2 = ' ' then collapseSpaces (c2 :: rest2)
            else c :: collapseSpaces (c2 :: rest2)) = c :: c2 :: rest2
      rw [if_neg hcond, ih h'.2]

theorem indent_take_drop (l : List Char)
    (h : (l.takeWhile isPySpace).all (fun c => c == ' ') = true) :
    List.replicate (l.takeWhile isPySpace).length ' ' ++ l.dropWhile isPySpace = l := by
  have h1 : ∀ b ∈ l.takeWhile isPySpace, b = ' ' := by
    intro b hb
    exact eq_of_beq (List.all_eq_true.mp h b hb)
  have h2 : l.takeWhile isPySpace = List.replicate (l.takeWhile isPySpace).length ' ' :=
    List.eq_replicate_of_mem h1
  rw [← h2, List.takeWhile_append_dropWhile]

/-! ### C1: token cost model -/

/-- C1: for positive dimensions, `estimate_image_tokens` scales both
dimensions by 1568 over the longest side exactly when that side exceeds
1568, truncating each scaled dimension, and returns
`max 1 (scaled_w * scaled_h / 750)`; the result is always at least 1, with
`estimate_image_tokens 750 750 = 750` and
`estimate_image_tokens 1568 1568 = 1568 * 1568 / 750`. The final conjunct
evaluates the intended exact-arithmetic model at the input where the source
code's binary64 scale factor loses a pixel. -/
theorem estimate_image_tokens_spec :
    (∀ w h : Nat, 0 < w → 0 < h →
      (1568 < max w h →
        estimate_image_tokens w h =
          max 1 (w * 1568 / max w h * (h * 1568 / max w h) / 750)) ∧
      (max w h ≤ 1568 → estimate_image_tokens w h = max 1 (w * h / 750)) ∧
      1 ≤ estimate_image_tokens w h) ∧
    estimate_image_tokens 750 750 = 750 ∧
    estimate_image_tokens 1568 1568 = 1568 * 1568 / 750 ∧
    estimate_image_tokens 2093 906 = 1417 := by
  refine ⟨fun w h _ _ => ⟨?_, ?_, ?_⟩, by decide, by decide, by decide⟩
  · intro hgt
    simp only [estimate_image_tokens, MAX_VISION_DIMENSION, TOKENS_PER_PIXEL_DIVISOR,
      if_pos hgt]
  · intro hle
    have hn : ¬(1568 < max w h) := Nat.not_lt.mpr hle
    simp only [estimate_image_tokens, MAX_VISION_DIMENSION, TOKENS_PER_PIXEL_DIVISOR,
      if_neg hn]
  · simp only [estimate_image_tokens]
    exact le_max_left 1 _

/-- Witness for C1 at a concrete scaled input. -/
theorem estimate_image_tokens_spec_witness :
    estimate_image_tokens 2000 1000 =
      max 1 (2000 * 1568 / max 2000 1000 * (1000 * 1568 / max 2000 1000) / 750) ∧
    1 ≤ estimate_image_tokens 2000 1000 :=
  ⟨(estimate_image_tokens_spec.1 2000 1000 (by decide) (by decide)).1 (by decide),
   (estimate_image_tokens_spec.1 2000 1000 (by decide) (by decide)).2.2⟩

/-! ### C10: cached wrapping limits are positive -/

/-- C10: for every configuration passing validation and any measured glyph
metrics, the cached `max_chars_per_line` and `max_lines_per_image` computed
at engine construction are both at least 1. -/
theorem engine_limits_at_least_one (c : RenderConfig) (cw ch : Int)
    (h : validate_config c = none) :
    1 ≤ (mkEngine c cw ch).max_chars_per_line ∧
    1 ≤ (mkEngine c cw ch).max_lines_per_image :=
  ⟨le_max_left 1 _, le_max_left 1 _⟩

/-- Witness for C10 at the default configuration with 6 by 9 glyphs. -/
theorem engine_limits_at_least_one_witness :
    1 ≤ (mkEngine defaultConfig 6 9).max_chars_per_line ∧
    1 ≤ (mkEngine defaultConfig 6 9).max_lines_per_image :=
  engine_limits_at_least_one defaultConfig 6 9 (by decide)

/-! ### C5: unknown content type is not a construction error -/

/-- Counterexample to C5: a configuration whose content_type is the unknown
name "html" passes `_validate_config`, and engine construction succeeds
rather than raising a configuration error. -/
theorem unknown_content_type_accepted :
    validate_config { defaultConfig with content_type := some "html" } = none ∧
    PixelPrompt_init { defaultConfig with content_type := some "html" } 6 9 =
      Except.ok (mkEngine { defaultConfig with content_type := some "html" } 6 9) := by
  exact ⟨rfl, rfl⟩

/-- C5 amended: engine construction validates font size, font family,
dimensions, padding and line spacing, but never inspects the content-type
name: validation is invariant under changing `content_type`, and unknown
content types are rejected only by the `for_content` factory. -/
theorem config_validation_spec :
    (∀ (c : RenderConfig) (ct : Option String),
      validate_config { c with content_type := ct } = validate_config c) ∧
    (∀ s : String, CONTENT_PRESETS.find? (fun p => p.1 == s) = none →
      for_content s = Except.error PresetError.unknownContentType) ∧
    validate_config { defaultConfig with font_size := 21 } =
      some ConfigError.fontSizeOutOfRange ∧
    validate_config { defaultConfig with font_family := "cursive" } =
      some ConfigError.invalidFontFamily ∧
    validate_config { defaultConfig with max_width := 49 } =
      some ConfigError.dimensionsTooSmall ∧
    validate_config { defaultConfig with padding := -1 } =
      some ConfigError.negativePadding ∧
    validate_config { defaultConfig with line_spacing := -1 } =
      some ConfigError.negativeLineSpacing := by
  refine ⟨fun c ct => rfl, fun s hs => ?_, by decide, by decide, by decide, by decide,
    by decide⟩
  unfold for_content
  rw [hs]

/-- Witness for C5 at the unknown content-type name "html". -/
theorem config_validation_spec_witness :
    for_content "html" = Except.error PresetError.unknownContentType ∧
    validate_config { defaultConfig with content_type := some "html" } =
      validate_config defaultConfig :=
  ⟨config_validation_spec.2.1 "html" (by decide),
   config_validation_spec.1 defaultConfig (some "html")⟩

/-! ### C4: the two empty-input error conditions -/

/-- Counterexample to C4: an input consisting only of blank lines is
whitespace-only, so `render` raises the generic empty-text condition, not
the distinct empty-after-minification condition the claim predicts. -/
theorem render_blank_lines_generic_error :
    render_validate defaultConfig ('\n' :: '\n' :: []) = some RenderError.emptyText ∧
    RenderError.emptyText ≠ RenderError.emptyAfterMinify := by
  exact ⟨by decide, by decide⟩

/-- C4 amended: with minify enabled and a non-json content type, an empty or
whitespace-only input (which includes input consisting only of blank lines)
raises the generic empty-text condition, while an input that is not
whitespace-only but whose minified form is empty raises the distinct
empty-after-minification condition; the two conditions are distinct. -/
theorem render_empty_error_conditions (c : RenderConfig) (text : List Char)
    (hmin : c.minify = true) (hjson : c.content_type ≠ some "json") :
    (pyStrip text = [] → render_validate c text = some RenderError.emptyText) ∧
    (pyStrip text ≠ [] → pyStrip (minify_text text) = [] →
      render_validate c text = some RenderError.emptyAfterMinify) ∧
    RenderError.emptyText ≠ RenderError.emptyAfterMinify := by
  refine ⟨fun h => ?_, fun h1 h2 => ?_, by decide⟩
  · simp [render_validate, h]
  · simp [render_validate, h1, hjson, hmin, h2]

/-- Witness for C4: the input consisting of the two characters star star is
not whitespace-only but minifies to nothing, hitting the distinct
empty-after-minification condition. -/
theorem render_empty_error_conditions_witness :
    render_validate defaultConfig ('*' :: '*' :: []) =
      some RenderError.emptyAfterMinify :=
  (render_empty_error_conditions defaultConfig ('*' :: '*' :: []) rfl
    (by decide)).2.1 (by decide) (by decide)

/-! ### C9: optimize_prompt -/

/-- Counterexample to C9: a prompt ending in a semicolon still gets a period
inserted before the suffix, because the code's terminal punctuation set is
only period, question mark, exclamation mark and colon. -/
theorem optimize_prompt_semicolon_gets_period :
    optimize_prompt ('a' :: ';' :: []) "concise" =
      'a' :: ';' :: '.' :: ' ' :: CONCISE_SUFFIX ∧
    ('a' :: ';' :: '.' :: ' ' :: CONCISE_SUFFIX) ≠
      ('a' :: ';' :: ' ' :: CONCISE_SUFFIX) := by
  exact ⟨by decide, by decide⟩

/-- C9 amended: for the styles concise, extract, structured and none,
`optimize_prompt` behaves as the spec-shaped `optimizePromptSpec`: it
returns the prompt unchanged for style none, or when the style suffix
already occurs anywhere in the prompt as a substring; otherwise it strips
trailing whitespace, inserts a period unless the stripped prompt ends in
period, question mark, exclamation mark or colon (semicolon excluded), and
appends a space and the suffix. -/
theorem optimize_prompt_matches_spec (prompt : List Char) (style : String)
    (hs : style = "concise" ∨ style = "extract" ∨ style = "structured" ∨
      style = "none") :
    optimize_prompt prompt style = optimizePromptSpec prompt style := by
  by_cases h0 : style = "none"
  · simp [optimize_prompt, optimizePromptSpec, h0]
  · by_cases h1 : containsSub (suffixFor style) prompt = true
    · simp [optimize_prompt, optimizePromptSpec, h0, h1]
    · simp only [optimize_prompt, optimizePromptSpec, h0, h1, if_false]
      cases hlast : (pyRStrip prompt).getLast? with
      | none =>
        simp [endsInTerminalPunct, hlast, terminalPunctuation, List.append_assoc]
      | some cc =>
        by_cases e1 : cc = '.'
        · subst e1; simp [endsInTerminalPunct, hlast, terminalPunctuation]
        · by_cases e2 : cc = '?'
          · subst e2; simp [endsInTerminalPunct, hlast, terminalPunctuation]
          · by_cases e3 : cc = '!'
            · subst e3; simp [endsInTerminalPunct, hlast, terminalPunctuation]
            · by_cases e4 : cc = ':'
              · subst e4; simp [endsInTerminalPunct, hlast, terminalPunctuation]
              · simp [endsInTerminalPunct, hlast, terminalPunctuation, e1, e2, e3, e4,
                  List.append_assoc]

/-- Witness for C9 at the concise style. -/
theorem optimize_prompt_matches_spec_witness :
    optimize_prompt ('H' :: 'i' :: []) "concise" =
      optimizePromptSpec ('H' :: 'i' :: []) "concise" :=
  optimize_prompt_matches_spec ('H' :: 'i' :: []) "concise" (Or.inl rfl)

/-! ### C2: word-wrap line length bound -/

theorem hardSplitAux_spec (m : Nat) (hm : 1 ≤ m) :
    ∀ (fuel : Nat) (word : List Char), word.length ≤ fuel →
      (∀ l ∈ (hardSplitAux fuel m word).1, l.length ≤ m) ∧
      (hardSplitAux fuel m word).2.length ≤ m := by
  intro fuel
  induction fuel with
  | zero =>
    intro w hw
    have hnil : w = [] := List.length_eq_zero.mp (Nat.le_zero.mp hw)
    subst hnil
    refine ⟨fun l hl => absurd hl (by simp [hardSplitAux]), by simp [hardSplitAux]⟩
  | succ fuel ih =>
    intro w hw
    by_cases hc : m = 0 ∨ w.length ≤ m
    · have hwm : w.length ≤ m := by
        rcases hc with h0 | h
        · omega
        · exact h
      constructor
      · intro l hl
        simp [hardSplitAux, hc] at hl
      · simp only [hardSplitAux, if_pos hc]
        exact hwm
    · have hc' := hc
      push_neg at hc'
      have hrec := ih (w.drop m) (by simp only [List.length_drop]; omega)
      constructor
      · intro l hl
        simp only [hardSplitAux, if_neg hc] at hl
        rcases List.mem_cons.mp hl with rfl | hl
        · simp only [List.length_take]
          omega
        · exact hrec.1 l hl
      · simp only [hardSplitAux, if_neg hc]
        exact hrec.2

theorem wrapStep_inv (m : Nat) (hm : 1 ≤ m) (st : List (List Char) × List Char)
    (word : List Char) (h1 : ∀ l ∈ st.1, l.length ≤ m) (h2 : st.2.length ≤ m) :
    (∀ l ∈ (wrapStep m st word).1, l.length ≤ m) ∧
    (wrapStep m st word).2.length ≤ m := by
  simp only [wrapStep, hardSplit]
  by_cases hfits : (if st.2 ≠ [] then pyStrip (st.2 ++ ' ' :: word) else word).length ≤ m
  · rw [if_pos hfits]
    exact ⟨h1, hfits⟩
  · rw [if_neg hfits]
    have hsp := hardSplitAux_spec m hm word.length word le_rfl
    constructor
    · intro l hl
      rcases List.mem_append.mp hl with hl | hl
      · by_cases hcur : st.2 ≠ []
        · rw [if_pos hcur] at hl
          rcases List.mem_append.mp hl with hl | hl
          · exact h1 l hl
          · rw [List.mem_singleton] at hl
            subst hl
            exact h2
        · rw [if_neg hcur] at hl
          exact h1 l hl
      · exact hsp.1 l hl
    · exact hsp.2

theorem foldl_wrapStep_inv (m : Nat) (hm : 1 ≤ m) :
    ∀ (ws : List (List Char)) (st : List (List Char) × List Char),
      (∀ l ∈ st.1, l.length ≤ m) → st.2.length ≤ m →
      (∀ l ∈ (ws.foldl (wrapStep m) st).1, l.length ≤ m) ∧
      (ws.foldl (wrapStep m) st).2.length ≤ m := by
  intro ws
  induction ws with
  | nil => intro st h1 h2; exact ⟨h1, h2⟩
  | cons w ws ih =>
    intro st h1 h2
    simp only [List.foldl_cons]
    have hstep := wrapStep_inv m hm st w h1 h2
    exact ih _ hstep.1 hstep.2

theorem wrapParagraph_bound (m : Nat) (hm : 1 ≤ m) (p : List Char) :
    ∀ l ∈ wrapParagraph m p, l.length ≤ m := by
  unfold wrapParagraph
  by_cases hnil : p = []
  · rw [if_pos hnil]
    intro l hl
    rw [List.mem_singleton] at hl
    subst hl
    simp
  · rw [if_neg hnil]
    by_cases hfit : p.length ≤ m
    · rw [if_pos hfit]
      intro l hl
      rw [List.mem_singleton] at hl
      subst hl
      exact hfit
    · rw [if_neg hfit]
      have hinv := foldl_wrapStep_inv m hm (pySplit ' ' p) ([], [])
        (by intro l hl; simp at hl) (by simp)
      by_cases hcur : ((pySplit ' ' p).foldl (wrapStep m) ([], [])).2 ≠ []
      · rw [if_pos hcur]
        intro l hl
        rcases List.mem_append.mp hl with hl | hl
        · exact hinv.1 l hl
        · rw [List.mem_singleton] at hl
          subst hl
          exact hinv.2
      · rw [if_neg hcur]
        exact hinv.1

/-- C2: every physical line produced by the word-wrap step has length at
most the character limit, including the fixed-width fragments produced when
a single over-long word is hard-split; the cached limit is always at least
one. -/
theorem wrap_text_lines_bounded (m : Nat) (text : List Char) (hm : 1 ≤ m) :
    ∀ l ∈ wrap_text m text, l.length ≤ m := by
  intro l hl
  unfold wrap_text at hl
  simp only [List.mem_flatten, List.mem_map] at hl
  obtain ⟨_, ⟨p, hp, rfl⟩, hl⟩ := hl
  exact wrapParagraph_bound m hm p l hl

/-- Witness for C2: a hard-split fragment from wrapping an eight-character
word at width three. -/
theorem wrap_text_lines_bounded_witness :
    ('a' :: 'b' :: 'c' :: []).length ≤ 3 :=
  wrap_text_lines_bounded 3 "abcdefgh".data (by decide) ('a' :: 'b' :: 'c' :: [])
    (by decide)

/-! ### C3: pagination -/

theorem chunkPagesAux_nil (fuel k : Nat) : chunkPagesAux fuel k [] = [] := by
  cases fuel <;> simp [chunkPagesAux]

theorem chunkPagesAux_flatten (k : Nat) (hk : 1 ≤ k) :
    ∀ (fuel : Nat) (lines : List (List Char)), lines.length ≤ fuel →
      (chunkPagesAux fuel k lines).flatten = lines := by
  intro fuel
  induction fuel with
  | zero =>
    intro lines hl
    have hnil : lines = [] := List.length_eq_zero.mp (Nat.le_zero.mp hl)
    subst hnil
    simp [chunkPagesAux]
  | succ fuel ih =>
    intro lines hl
    by_cases hc : k = 0 ∨ lines = []
    · have hnil : lines = [] := by
        rcases hc with h0 | h
        · omega
        · exact h
      subst hnil
      simp [chunkPagesAux]
    · have hc' := hc
      push_neg at hc'
      simp only [chunkPagesAux, if_neg hc, List.flatten_cons]
      rw [ih (lines.drop k) (by simp only [List.length_drop]; omega)]
      exact List.take_append_drop k lines

theorem chunkPagesAux_length (k : Nat) (hk : 1 ≤ k) :
    ∀ (fuel : Nat) (lines : List (List Char)), lines.length ≤ fuel → lines ≠ [] →
      (chunkPagesAux fuel k lines).length = (lines.length + k - 1) / k := by
  intro fuel
  induction fuel with
  | zero =>
    intro lines hl hne
    exact absurd (List.length_eq_zero.mp (Nat.le_zero.mp hl)) hne
  | succ fuel ih =>
    intro lines hl hne
    have hc : ¬(k = 0 ∨ lines = []) := by
      rintro (h0 | h)
      · omega
      · exact hne h
    have hn1 : 1 ≤ lines.length := List.length_pos.mpr hne
    simp only [chunkPagesAux, if_neg hc, List.length_cons]
    by_cases hdk : lines.drop k = []
    · rw [hdk, chunkPagesAux_nil]
      have hnk : lines.length ≤ k := by
        have := congrArg List.length hdk
        simp only [List.length_drop, List.length_nil] at this
        omega
      have harg : lines.length + k - 1 = (lines.length - 1) + k := by omega
      rw [harg, Nat.add_div_right _ (by omega), Nat.div_eq_of_lt (by omega)]
      rfl
    · have hkn : k < lines.length := by
        by_contra hle
        push_neg at hle
        exact hdk (List.drop_eq_nil_of_le hle)
      have hlen2 : (lines.drop k).length ≤ fuel := by
        simp only [List.length_drop]
        omega
      rw [ih (lines.drop k) hlen2 hdk]
      simp only [List.length_drop]
      have harg : lines.length + k - 1 = ((lines.length - k) + k - 1) + k := by omega
      rw [harg, Nat.add_div_right _ (by omega)]

theorem chunkPagesAux_mem (k : Nat) :
    ∀ (fuel : Nat) (lines : List (List Char)),
      ∀ p ∈ chunkPagesAux fuel k lines, p.length ≤ k := by
  intro fuel
  induction fuel with
  | zero =>
    intro lines p hp
    simp [chunkPagesAux] at hp
  | succ fuel ih =>
    intro lines p hp
    by_cases hc : k = 0 ∨ lines = []
    · simp [chunkPagesAux, hc] at hp
    · simp only [chunkPagesAux, if_neg hc] at hp
      rcases List.mem_cons.mp hp with rfl | hp
      · simp only [List.length_take]
        omega
      · exact ih (lines.drop k) p hp

theorem chunkPages_ne_nil (k : Nat) (hk : 1 ≤ k) (lines : List (List Char))
    (h : lines ≠ []) : chunkPages k lines ≠ [] := by
  cases lines with
  | nil => exact absurd rfl h
  | cons a t =>
    show chunkPagesAux (a :: t).length k (a :: t) ≠ []
    have hc : ¬(k = 0 ∨ (a :: t : List (List Char)) = []) := by
      rintro (h0 | h2)
      · omega
      · exact List.cons_ne_nil a t h2
    simp only [List.length_cons, chunkPagesAux, if_neg hc]
    exact List.cons_ne_nil _ _

/-- C3: pagination chunks the wrapped lines into consecutive groups of at
most the per-image limit, concatenating all pages reconstructs the input
exactly, the number of pages is the ceiling of line count over the limit
with a minimum of one, and the empty line list yields exactly one page
containing the empty list. -/
theorem paginate_spec (k : Nat) (lines : List (List Char)) (hk : 1 ≤ k) :
    (paginate k lines).flatten = lines ∧
    (paginate k lines).length = max 1 ((lines.length + k - 1) / k) ∧
    (∀ p ∈ paginate k lines, p.length ≤ k) ∧
    paginate k ([] : List (List Char)) = [[]] := by
  have hempty : paginate k ([] : List (List Char)) = [[]] := by
    simp [paginate, chunkPages, chunkPagesAux]
  by_cases hl : lines = []
  · subst hl
    refine ⟨?_, ?_, ?_, hempty⟩
    · rw [hempty]
      simp
    · rw [hempty]
      simp only [List.length_nil, List.length_cons]
      rw [Nat.div_eq_of_lt (by omega)]
      omega
    · rw [hempty]
      intro p hp
      rw [List.mem_singleton] at hp
      subst hp
      simp
  · have hch := chunkPages_ne_nil k hk lines hl
    have hpag : paginate k lines = chunkPages k lines := by
      simp [paginate, hch]
    refine ⟨?_, ?_, ?_, hempty⟩
    · rw [hpag]
      exact chunkPagesAux_flatten k hk lines.length lines le_rfl
    · rw [hpag]
      have hlen := chunkPagesAux_length k hk lines.length lines le_rfl hl
      rw [show chunkPages k lines = chunkPagesAux lines.length k lines from rfl, hlen]
      have hn1 : 1 ≤ lines.length := List.length_pos.mpr hl
      have hge : 1 ≤ (lines.length + k - 1) / k := by
        rw [Nat.one_le_div_iff (by omega)]
        omega
      exact (Nat.max_eq_right hge).symm
    · rw [hpag]
      exact chunkPagesAux_mem k lines.length lines

/-- Witness for C3 at three lines and a two-line page limit. -/
theorem paginate_spec_witness :
    (paginate 2 ([['a'], ['b'], ['c']])).flatten = [['a'], ['b'], ['c']] ∧
    (paginate 2 ([['a'], ['b'], ['c']])).length =
      max 1 ((([['a'], ['b'], ['c']] : List (List Char)).length + 2 - 1) / 2) ∧
    (∀ p ∈ paginate 2 ([['a'], ['b'], ['c']]), p.length ≤ 2) ∧
    paginate 2 ([] : List (List Char)) = [[]] :=
  paginate_spec 2 ([['a'], ['b'], ['c']]) (by decide)

/-! ### C8: page renderer dimensions and token cost -/

theorem minmax_swap (lo hi x : Int) (h : lo ≤ hi) :
    min hi (max x lo) = max lo (min hi x) := by
  omega

/-- C8: the rendered page width is the clamp of content width between 50
and max_width when dynamic width is on and max_width otherwise, the height
is the clamp of content height between 20 and max_height when dynamic
height is on and max_height otherwise, and the token cost attached to the
page is `estimate_image_tokens` of exactly these final dimensions. -/
theorem render_page_dims_spec (c : RenderConfig) (cw ch : Int)
    (lines : List (List Char)) (hW : 50 ≤ c.max_width) (hH : 20 ≤ c.max_height) :
    (pageDims (mkEngine c cw ch) lines).1 =
      (if c.dynamic_width then
        clamp ((longestLineLen lines : Int) * cw + 2 * c.padding) 50 c.max_width
      else c.max_width) ∧
    (pageDims (mkEngine c cw ch) lines).2 =
      (if c.dynamic_height then
        clamp ((lines.length : Int) * (ch + c.line_spacing) + 2 * c.padding) 20
          c.max_height
      else c.max_height) ∧
    pageTokens (mkEngine c cw ch) lines =
      estimate_image_tokens (pageDims (mkEngine c cw ch) lines).1.toNat
        (pageDims (mkEngine c cw ch) lines).2.toNat := by
  refine ⟨?_, ?_, rfl⟩
  · show (if c.dynamic_width then
        min c.max_width (max ((longestLineLen lines : Int) * cw + 2 * c.padding) 50)
      else c.max_width) = _
    by_cases hd : c.dynamic_width
    · rw [if_pos hd, if_pos hd]
      unfold clamp
      exact minmax_swap 50 c.max_width _ hW
    · rw [if_neg hd, if_neg hd]
  · show (if c.dynamic_height then
        min c.max_height
          (max ((lines.length : Int) * (ch + c.line_spacing) + 2 * c.padding) 20)
      else c.max_height) = _
    by_cases hd : c.dynamic_height
    · rw [if_pos hd, if_pos hd]
      unfold clamp
      exact minmax_swap 20 c.max_height _ hH
    · rw [if_neg hd, if_neg hd]

/-- Witness for C8 at the default configuration and a single two-character
line. -/
theorem render_page_dims_spec_witness :
    (pageDims (mkEngine defaultConfig 6 9) [['H', 'i']]).1 =
      (if defaultConfig.dynamic_width then
        clamp ((longestLineLen [['H', 'i']] : Int) * 6 + 2 * defaultConfig.padding)
          50 defaultConfig.max_width
      else defaultConfig.max_width) ∧
    (pageDims (mkEngine defaultConfig 6 9) [['H', 'i']]).2 =
      (if defaultConfig.dynamic_height then
        clamp ((([['H', 'i']] : List (List Char)).length : Int) *
            (9 + defaultConfig.line_spacing) + 2 * defaultConfig.padding) 20
          defaultConfig.max_height
      else defaultConfig.max_height) ∧
    pageTokens (mkEngine defaultConfig 6 9) [['H', 'i']] =
      estimate_image_tokens (pageDims (mkEngine defaultConfig 6 9) [['H', 'i']]).1.toNat
        (pageDims (mkEngine defaultConfig 6 9) [['H', 'i']]).2.toNat :=
  render_page_dims_spec defaultConfig 6 9 [['H', 'i']] (by decide) (by decide)

/-! ### C7: dynamic versus fixed token totals -/

theorem estimate_small (a b : Nat) (ha : a ≤ 1568) (hb : b ≤ 1568) :
    estimate_image_tokens a b = max 1 (a * b / 750) := by
  have hn : ¬(1568 < max a b) := Nat.not_lt.mpr (max_le ha hb)
  simp only [estimate_image_tokens, MAX_VISION_DIMENSION, TOKENS_PER_PIXEL_DIVISOR,
    if_neg hn]

theorem tokens_lt_of_gap (a b A B : Nat) (ha : 50 ≤ a) (hb : 20 ≤ b)
    (hgap : a * b + 750 ≤ A * B) :
    max 1 (a * b / 750) < max 1 (A * B / 750) := by
  have hab : 1000 ≤ a * b := le_trans (by norm_num) (Nat.mul_le_mul ha hb)
  have h1 : 1 ≤ a * b / 750 := by
    rw [Nat.one_le_div_iff (by omega)]
    omega
  have h2 : a * b / 750 + 1 ≤ A * B / 750 := by
    have hd : (a * b + 750) / 750 ≤ A * B / 750 := Nat.div_le_div_right hgap
    rwa [Nat.add_div_right _ (by omega)] at hd
  rw [Nat.max_eq_right h1, Nat.max_eq_right (by omega)]
  omega

theorem map_sum_le {α : Type} (l : List α) (f g : α → Nat)
    (h : ∀ x ∈ l, f x ≤ g x) : (l.map f).sum ≤ (l.map g).sum := by
  induction l with
  | nil => simp
  | cons a t ih =>
    simp only [List.map_cons, List.sum_cons]
    have h1 := h a (List.mem_cons_self a t)
    have h2 := ih (fun x hx => h x (List.mem_cons_of_mem _ hx))
    omega

theorem map_sum_lt {α : Type} (l : List α) (f g : α → Nat) (hne : l ≠ [])
    (h : ∀ x ∈ l, f x < g x) : (l.map f).sum < (l.map g).sum := by
  cases l with
  | nil => exact absurd rfl hne
  | cons a t =>
    simp only [List.map_cons, List.sum_cons]
    have h1 := h a (List.mem_cons_self a t)
    have h2 := map_sum_le t f g (fun x hx => le_of_lt (h x (List.mem_cons_of_mem _ hx)))
    omega

theorem render_pages_ne_nil (e : Engine) (text : List Char) :
    render_pages e text ≠ [] := by
  unfold render_pages paginate
  by_cases h :
      chunkPages e.max_lines_per_image.toNat (wrap_text e.max_chars_per_line.toNat text) =
        [] <;>
    simp [h]

/-- Counterexample to C7: on a 50 by 25 canvas the text consisting of the
two characters H i has content strictly smaller than the configured maxima,
yet the dynamic and fixed renders cost the same one token, so the dynamic
total is not strictly less. -/
theorem dynamic_tokens_not_strictly_less :
    (longestLineLen [['H', 'i']] : Int) * 6 + 2 * cfgSmallCanvas.padding <
      cfgSmallCanvas.max_width ∧
    (1 : Int) * (9 + cfgSmallCanvas.line_spacing) + 2 * cfgSmallCanvas.padding <
      cfgSmallCanvas.max_height ∧
    render_pages (mkEngine (withDynamic cfgSmallCanvas true true) 6 9)
      ('H' :: 'i' :: []) = [[['H', 'i']]] ∧
    render_tokens (mkEngine (withDynamic cfgSmallCanvas true true) 6 9)
      ('H' :: 'i' :: []) =
      render_tokens (mkEngine (withDynamic cfgSmallCanvas false false) 6 9)
        ('H' :: 'i' :: []) := by
  exact ⟨by decide, by decide, by decide, by decide⟩

/-- C7 amended: with maximum dimensions at most 1568 and every page of the
dynamic render having area at least 750 square pixels below the fixed
canvas area, the summed token cost with both dynamic flags on is strictly
less than with both off, all other configuration equal. -/
theorem dynamic_tokens_lt_fixed (c : RenderConfig) (cw ch : Int) (text : List Char)
    (hW1 : 50 ≤ c.max_width) (hW2 : c.max_width ≤ 1568)
    (hH1 : 20 ≤ c.max_height) (hH2 : c.max_height ≤ 1568)
    (hgap : ∀ p ∈ render_pages (mkEngine (withDynamic c true true) cw ch) text,
      (pageDims (mkEngine (withDynamic c true true) cw ch) p).1 *
        (pageDims (mkEngine (withDynamic c true true) cw ch) p).2 + 750 ≤
        c.max_width * c.max_height) :
    render_tokens (mkEngine (withDynamic c true true) cw ch) text <
      render_tokens (mkEngine (withDynamic c false false) cw ch) text := by
  have hpages : render_pages (mkEngine (withDynamic c false false) cw ch) text =
      render_pages (mkEngine (withDynamic c true true) cw ch) text := rfl
  unfold render_tokens
  rw [hpages]
  apply map_sum_lt _ _ _ (render_pages_ne_nil _ _)
  intro p hp
  have hd1 : (pageDims (mkEngine (withDynamic c true true) cw ch) p).1 =
      min c.max_width (max ((longestLineLen p : Int) * cw + 2 * c.padding) 50) := rfl
  have hd2 : (pageDims (mkEngine (withDynamic c true true) cw ch) p).2 =
      min c.max_height
        (max ((p.length : Int) * (ch + c.line_spacing) + 2 * c.padding) 20) := rfl
  set w := min c.max_width (max ((longestLineLen p : Int) * cw + 2 * c.padding) 50)
    with hwdef
  set v := min c.max_height
      (max ((p.length : Int) * (ch + c.line_spacing) + 2 * c.padding) 20) with hvdef
  have hw1 : (50 : Int) ≤ w := le_min hW1 (le_max_right _ _)
  have hw2 : w ≤ c.max_width := min_le_left _ _
  have hv1 : (20 : Int) ≤ v := le_min hH1 (le_max_right _ _)
  have hv2 : v ≤ c.max_height := min_le_left _ _
  have hdynTok : pageTokens (mkEngine (withDynamic c true true) cw ch) p =
      estimate_image_tokens w.toNat v.toNat := rfl
  have hfixTok : pageTokens (mkEngine (withDynamic c false false) cw ch) p =
      estimate_image_tokens c.max_width.toNat c.max_height.toNat := rfl
  rw [hdynTok, hfixTok]
  have hwa : w.toNat ≤ 1568 := by
    have hle : w ≤ 1568 := le_trans hw2 hW2
    omega
  have hva : v.toNat ≤ 1568 := by
    have hle : v ≤ 1568 := le_trans hv2 hH2
    omega
  have hWa : c.max_width.toNat ≤ 1568 := by omega
  have hHa : c.max_height.toNat ≤ 1568 := by omega
  rw [estimate_small _ _ hwa hva, estimate_small _ _ hWa hHa]
  apply tokens_lt_of_gap
  · omega
  · omega
  · have hg := hgap p hp
    rw [hd1, hd2] at hg
    have e1 : (w.toNat : Int) = w := Int.toNat_of_nonneg (by omega)
    have e2 : (v.toNat : Int) = v := Int.toNat_of_nonneg (by omega)
    have e3 : (c.max_width.toNat : Int) = c.max_width := Int.toNat_of_nonneg (by omega)
    have e4 : (c.max_height.toNat : Int) = c.max_height :=
      Int.toNat_of_nonneg (by omega)
    have hInt : ((w.toNat * v.toNat + 750 : Nat) : Int) ≤
        ((c.max_width.toNat * c.max_height.toNat : Nat) : Int) := by
      push_cast
      rw [e1, e2, e3, e4]
      exact hg
    exact_mod_cast hInt

/-- Witness for C7 at the default 1568 by 1568 configuration rendering the
two-character text H i: one token dynamically against 3278 fixed. -/
theorem dynamic_tokens_lt_fixed_witness :
    render_tokens (mkEngine (withDynamic defaultConfig true true) 6 9)
      ('H' :: 'i' :: []) <
      render_tokens (mkEngine (withDynamic defaultConfig false false) 6 9)
        ('H' :: 'i' :: []) :=
  dynamic_tokens_lt_fixed defaultConfig 6 9 ('H' :: 'i' :: []) (by decide) (by decide)
    (by decide) (by decide) (by decide)

/-! ### C6: minify fixpoint on already-minified text -/

theorem join_with_newlines : ∀ (rest : List (List Char)) (first : List Char),
    (∀ l ∈ rest, joinSep l = '\n' :: l) →
    first ++ (rest.map joinSep).flatten = joinNewline (first :: rest) := by
  intro rest
  induction rest with
  | nil => intro first _; simp [joinNewline]
  | cons r rs ih =>
    intro first h
    have hr := h r (List.mem_cons_self r rs)
    have hrs : ∀ l ∈ rs, joinSep l = '\n' :: l := fun l hl =>
      h l (List.mem_cons_of_mem _ hl)
    have hmain := ih r hrs
    simp only [List.map_cons, List.flatten_cons, hr]
    rw [show joinNewline (first :: r :: rs) = first ++ '\n' :: joinNewline (r :: rs)
      from rfl]
    rw [← hmain]
    simp [List.cons_append]

theorem cleanLine_fixpoint (l : List Char) (hmin : lineMinified l = true)
    (hsp : (l.takeWhile isPySpace).all (fun c => c == ' ') = true) :
    cleanLine l = l := by
  simp only [lineMinified, Bool.and_eq_true, Bool.not_eq_true'] at hmin
  obtain ⟨⟨⟨⟨⟨hne, hrs⟩, hsh⟩, hst⟩, hun⟩, hds⟩ := hmin
  have hrs' : pyRStrip l = l := by simpa using hrs
  have hsh' : stripHeader l = l := by simpa using hsh
  simp only [cleanLine]
  rw [hrs', hsh', removeSub2_fixpoint '*' '*' l hst, removeSub2_fixpoint '_' '_' l hun]
  have hcc : collapseSpaces (l.dropWhile isPySpace) = l.dropWhile isPySpace := by
    apply collapseSpaces_fixpoint
    simpa [pyLStrip] using hds
  rw [hcc]
  exact indent_take_drop l hsp

/-- Counterexample to C6: the single tab-indented line consisting of a tab
then the letter a satisfies every condition of the claim (no blank lines,
no heading markers, no delimiters, no trailing whitespace, single interior
spaces, no line breaks at all), yet `minify_text` rewrites its tab indent
to a space, so it is not a fixpoint. -/
theorem minify_not_fixpoint_on_tab_indent :
    minifiedShape ('\t' :: 'a' :: []) = true ∧
    minify_text ('\t' :: 'a' :: []) ≠ '\t' :: 'a' :: [] := by
  exact ⟨by decide, by decide⟩

/-- C6 amended: `minify_text` is the identity on every text satisfying the
claim conditions strengthened with space-only leading indentation: no blank
lines, no heading markers, no bold or italic delimiters, no trailing
whitespace, only single interior spaces, leading whitespace made of spaces
only, and line breaks only before list items or space-indented lines. -/
theorem minify_fixpoint (x : List Char) (h1 : minifiedShape x = true)
    (h2 : spaceIndented x = true) :
    minify_text x = x := by
  simp only [minifiedShape, Bool.and_eq_true] at h1
  obtain ⟨hall, htail⟩ := h1
  have hallm := List.all_eq_true.mp hall
  have htailm := List.all_eq_true.mp htail
  simp only [spaceIndented] at h2
  have hspm := List.all_eq_true.mp h2
  have hfil : (pySplit '\n' x).filter (fun l => !(pyRStrip l).isEmpty) =
      pySplit '\n' x := by
    rw [List.filter_eq_self]
    intro a ha
    have hm := hallm a ha
    simp only [lineMinified, Bool.and_eq_true, Bool.not_eq_true'] at hm
    obtain ⟨⟨⟨⟨⟨hne, hrs⟩, _⟩, _⟩, _⟩, _⟩ := hm
    have ha' : pyRStrip a = a := by simpa using hrs
    rw [ha', hne]
    rfl
  have hmap : (pySplit '\n' x).map cleanLine = pySplit '\n' x :=
    map_id_of_mem (fun a ha => cleanLine_fixpoint a (hallm a ha) (hspm a ha))
  simp only [minify_text, hfil, hmap]
  cases hs : pySplit '\n' x with
  | nil => exact absurd hs (pySplit_ne_nil _ _)
  | cons first rest =>
    have hjs : ∀ l ∈ rest, joinSep l = '\n' :: l := by
      intro l hl
      have hlt : l ∈ (pySplit '\n' x).tail := by
        rw [hs]
        exact hl
      have ht : isListItem l = true ∨ headIsChar ' ' l = true := by
        simpa using htailm l hlt
      unfold joinSep
      rcases ht with h | h
      · rw [if_pos (Or.inl h)]
      · rw [if_pos (Or.inr h)]
    have hjoin := join_with_newlines rest first hjs
    have hx : joinNewline (first :: rest) = x := by
      rw [← hs]
      exact joinNewline_pySplit x
    show first ++ (rest.map joinSep).flatten = x
    rw [hjoin]
    exact hx

/-- Witness for C6: a two-line text with a space-indented second line is
left unchanged by `minify_text`. -/
theorem minify_fixpoint_witness :
    minify_text ('a' :: '\n' :: ' ' :: 'b' :: []) = 'a' :: '\n' :: ' ' :: 'b' :: [] :=
  minify_fixpoint ('a' :: '\n' :: ' ' :: 'b' :: []) (by decide) (by decide)

end PixelPrompt
